import Mathlib

/-!
Verification of the broad-phase collision-candidate core of
computer-graphics-tools/simulation-tools.

Shallow embedding of `Sources/SimulationTools/Common/BroadPhaseCommon.h` and
`Sources/SimulationTools/Common/DistanceFunctions.h`.

Modelling conventions:
* Metal `float` scalars are modelled by exact rationals `ℚ`; the claims
  settled here are order/selection and algebraic-identity properties, for
  which exact arithmetic is the faithful mathematical reading.
* Metal `int` (32-bit two's complement) is modelled by `ℤ` together with
  explicit reduction modulo `2^32`; `uint` by `ℕ` with the same reduction.
* The fixed C array `CollisionCandidate candidates[MAX_COLLISION_CANDIDATES]`
  is modelled as a total function `ℕ → CollisionCandidate`; all loops of the
  source run over the first `count` slots only, and every theorem below
  quantifies over exactly that range.
* Loops are translated literally as structural recursions on the number of
  remaining iterations, state passed explicitly.
-/

/-- Rational model of the Metal `sign` function: `-1`, `0` or `1`. -/
def sign (q : ℚ) : ℚ :=
  if q < 0 then -1 else if q = 0 then 0 else 1

/-- Rational model of Metal `saturate(x) = clamp(x, 0, 1)`. -/
def saturate (q : ℚ) : ℚ :=
  min (max q 0) 1

/-- Model of Metal `float3` with exact rational components. -/
structure Vec3 where
  x : ℚ
  y : ℚ
  z : ℚ
deriving DecidableEq

instance : Add Vec3 := ⟨fun u v => ⟨u.x + v.x, u.y + v.y, u.z + v.z⟩⟩

instance : Sub Vec3 := ⟨fun u v => ⟨u.x - v.x, u.y - v.y, u.z - v.z⟩⟩

instance : SMul ℚ Vec3 := ⟨fun t v => ⟨t * v.x, t * v.y, t * v.z⟩⟩

@[simp] theorem Vec3.add_x (u v : Vec3) : (u + v).x = u.x + v.x := rfl

@[simp] theorem Vec3.add_y (u v : Vec3) : (u + v).y = u.y + v.y := rfl

@[simp] theorem Vec3.add_z (u v : Vec3) : (u + v).z = u.z + v.z := rfl

@[simp] theorem Vec3.sub_x (u v : Vec3) : (u - v).x = u.x - v.x := rfl

@[simp] theorem Vec3.sub_y (u v : Vec3) : (u - v).y = u.y - v.y := rfl

@[simp] theorem Vec3.sub_z (u v : Vec3) : (u - v).z = u.z - v.z := rfl

@[simp] theorem Vec3.smul_x (t : ℚ) (v : Vec3) : (t • v).x = t * v.x := rfl

@[simp] theorem Vec3.smul_y (t : ℚ) (v : Vec3) : (t • v).y = t * v.y := rfl

@[simp] theorem Vec3.smul_z (t : ℚ) (v : Vec3) : (t • v).z = t * v.z := rfl

/-- Metal `dot` on 3-vectors. -/
def dot (u v : Vec3) : ℚ :=
  u.x * v.x + u.y * v.y + u.z * v.z

/-- Metal `cross` on 3-vectors. -/
def cross (u v : Vec3) : Vec3 :=
  ⟨u.y * v.z - u.z * v.y, u.z * v.x - u.x * v.z, u.x * v.y - u.y * v.x⟩

/-- Metal `length_squared`. -/
def lengthSquared (v : Vec3) : ℚ :=
  dot v v

theorem lengthSquared_nonneg (v : Vec3) : 0 ≤ lengthSquared v := by
  unfold lengthSquared dot
  nlinarith [mul_self_nonneg v.x, mul_self_nonneg v.y, mul_self_nonneg v.z]

theorem lengthSquared_pos_of_ne (v : Vec3) (h : lengthSquared v ≠ 0) :
    0 < lengthSquared v :=
  lt_of_le_of_ne (lengthSquared_nonneg v) (Ne.symm h)

theorem saturate_nonneg (q : ℚ) : 0 ≤ saturate q :=
  le_min (le_max_right q 0) (by norm_num)

theorem saturate_le_one (q : ℚ) : saturate q ≤ 1 :=
  min_le_right _ _

theorem sign_of_pos {q : ℚ} (h : 0 < q) : sign q = 1 := by
  unfold sign
  rw [if_neg (by linarith), if_neg (by linarith)]

/-! ## Spatial hash (BroadPhaseCommon.h lines 40-61) -/

/-- Unsigned 32-bit reinterpretation of an integer: the value of its low 32
bits, i.e. reduction modulo `2^32` into `[0, 2^32)`. -/
def toUInt32 (n : ℤ) : ℕ :=
  (n % 4294967296).toNat

/-- Signed 32-bit (two's complement) value of a natural number's low 32 bits:
the representative in `[-2^31, 2^31)`. -/
def toInt32 (n : ℕ) : ℤ :=
  if (n % 4294967296) < 2147483648 then ((n % 4294967296 : ℕ) : ℤ)
  else ((n % 4294967296 : ℕ) : ℤ) - 4294967296

/-- Source `hashCoord`: floor-divide each coordinate by the grid spacing. -/
def hashCoord (position : Vec3) (gridSpacing : ℚ) : ℤ × ℤ × ℤ :=
  (⌊position.x / gridSpacing⌋, ⌊position.y / gridSpacing⌋, ⌊position.z / gridSpacing⌋)

/-- Source `computeHash`: `(x * 92837111) ^ (y * 689287499) ^ (z * 283923481)`
on 32-bit `int`, i.e. with two's-complement wraparound on each product and a
bitwise XOR of the 32-bit patterns. -/
def computeHash (position : ℤ × ℤ × ℤ) : ℤ :=
  toInt32 (Nat.xor (Nat.xor (toUInt32 (position.1 * 92837111))
    (toUInt32 (position.2.1 * 689287499))) (toUInt32 (position.2.2 * 283923481)))

/-- Source `getHash`: `uint(abs(hash % hashTableCapacity))` where `hash` is
`int` and `hashTableCapacity` is `uint`.  By C++/Metal usual arithmetic
conversions the `int` operand of `%` is converted to `uint` first, so the
reduction is the unsigned modulo of the hash's 32-bit pattern, and `abs` acts
on an unsigned value (identity). -/
def getHash (position : ℤ × ℤ × ℤ) (hashTableCapacity : ℕ) : ℕ :=
  toUInt32 (computeHash position) % hashTableCapacity

/-- Truncating (C-style) integer remainder: result has the sign of the
dividend.  For `0 ≤ a` it is `a mod b`; for `a < 0` it is `-((-a) mod b)`. -/
def tmodZ (a b : ℤ) : ℤ :=
  if 0 ≤ a then ((a.toNat % b.toNat : ℕ) : ℤ) else -(((-a).toNat % b.toNat : ℕ) : ℤ)

/-- Modelled from the spec: the slot computation as the spec (and claim C5)
words it — reduce the signed 32-bit hash with two's-complement
truncating-division (signed) modulo semantics, then take the absolute value of
the possibly negative remainder. -/
def getHashSpecModel (position : ℤ × ℤ × ℤ) (hashTableCapacity : ℕ) : ℕ :=
  (tmodZ (computeHash position) (hashTableCapacity : ℤ)).natAbs

/-! ## Distance functions (DistanceFunctions.h lines 18-98) -/

/-- Source `usdTriangle`: unsigned squared pseudo-distance from point `p` to
triangle `(a, b, c)`.  Line-by-line translation with vector operations `s • v`
for the componentwise `v * s` of the source. -/
def usdTriangle (p a b c : Vec3) : ℚ :=
  let ba := b - a
  let pa := p - a
  let cb := c - b
  let pb := p - b
  let ac := a - c
  let pc := p - c
  let nor := cross ba ac
  if sign (dot (cross ba nor) pa) + sign (dot (cross cb nor) pb) +
      sign (dot (cross ac nor) pc) < 2 then
    min (min
      (lengthSquared (saturate (dot ba pa / lengthSquared ba) • ba - pa))
      (lengthSquared (saturate (dot cb pb / lengthSquared cb) • cb - pb)))
      (lengthSquared (saturate (dot ac pc / lengthSquared ac) • ac - pc))
  else
    dot nor pa * dot nor pa / lengthSquared nor

/-- Source `closestPointTriangle`, barycentric part: the value written to the
output reference `uvw`.  The mutations of `b0`, `b1`, `b2` in the source are
translated as the value each branch leaves in `(b0, b1, b2)`; the branch-local
shadowing variables `d`, `d2`, `t` are renamed `dd`, `dd2`, `tt`. -/
def closestPointTriangleUVW (p0 p1 p2 p : Vec3) : Vec3 :=
  let d1 := p1 - p0
  let d2 := p2 - p0
  let pp0 := p - p0
  let a := lengthSquared d1
  let b := dot d2 d1
  let c := dot pp0 d1
  let d := b
  let e := lengthSquared d2
  let f := dot pp0 d2
  let det := a * e - b * d
  if det ≠ 0 then
    let s := (c * e - b * f) / det
    let t := (a * f - c * d) / det
    let b0 := 1 - s - t
    let b1 := s
    let b2 := t
    if b0 < 0 then
      let dd := p2 - p1
      let dd2 := lengthSquared dd
      let tt := saturate (if dd2 = 0 then 1/2 else dot dd (p - p1) / dd2)
      ⟨0, 1 - tt, tt⟩
    else if b1 < 0 then
      let dd := p0 - p2
      let dd2 := lengthSquared dd
      let tt := saturate (if dd2 = 0 then 1/2 else dot dd (p - p2) / dd2)
      ⟨tt, 0, 1 - tt⟩
    else if b2 < 0 then
      let dd := p1 - p0
      let dd2 := lengthSquared dd
      let tt := saturate (if dd2 = 0 then 1/2 else dot dd (p - p0) / dd2)
      ⟨1 - tt, tt, 0⟩
    else
      ⟨b0, b1, b2⟩
  else
    ⟨1/3, 1/3, 1/3⟩

/-- Source `closestPointTriangle`: returns the closest point
`b0 * p0 + b1 * p1 + b2 * p2` together with the barycentric coordinates the
source writes through the `uvw` reference. -/
def closestPointTriangle (p0 p1 p2 p : Vec3) : Vec3 × Vec3 :=
  let uvw := closestPointTriangleUVW p0 p1 p2 p
  (uvw.x • p0 + uvw.y • p1 + uvw.z • p2, uvw)

/-! ## Candidate list (BroadPhaseCommon.h lines 63-182) -/

/-- Source `UINT_MAX`, the sentinel index marking an empty slot. -/
def UINT_MAX : ℕ := 4294967295

/-- Source `FLT_MAX`, the sentinel distance of an empty slot (the largest
finite IEEE-754 single value, exact). -/
def FLT_MAX : ℚ := 340282346638528859811704183484516925440

/-- Source `CollisionCandidate`: an index paired with its ranking distance. -/
structure CollisionCandidate where
  index : ℕ
  distance : ℚ
deriving DecidableEq

/-- The scan loop of `insertSeed` (lines 163-172): iterate `rem` more slots
starting at slot `i`, with `ip` the `insertPosition` accumulator (`none` for
the source's `-1`).  Returns `(insertPosition, duplicateIndex)`; the loop
breaks as soon as the duplicate is found. -/
def scanSeedAux (c : ℕ → CollisionCandidate) (index : ℕ) (distance : ℚ) :
    ℕ → ℕ → Option ℕ → Option ℕ × Option ℕ
  | 0, _, ip => (ip, none)
  | rem + 1, i, ip =>
    let ip2 := if ip = none ∧ distance ≤ (c i).distance then some i else ip
    if (c i).index = index then (ip2, some i)
    else scanSeedAux c index distance rem (i + 1) ip2

/-- The shift loop of `insertSeed` (lines 176-178): for `j` descending from
`start` while `j > p`, set `candidates[j] = candidates[j-1]`. -/
def shiftAux (c : ℕ → CollisionCandidate) (p : ℕ) : ℕ → ℕ → CollisionCandidate
  | 0 => c
  | j + 1 =>
    if p < j + 1 then shiftAux (fun k => if k = j + 1 then c j else c k) p j
    else c

/-- The source's `int start = duplicateIndex == -1 ? count - 1 :
duplicateIndex` (line 175). -/
def startOf (dup : Option ℕ) (count : ℕ) : ℕ :=
  match dup with
  | none => count - 1
  | some d => d

/-- Source `insertSeed` (lines 152-182): scan for the sorted insert position
and a duplicate of `index`; if an insert position was found, shift the slots
from `start` (the duplicate slot, else the last slot `count - 1`) down to the
insert position and write the new candidate there; otherwise leave the list
unchanged. -/
def insertSeed (c : ℕ → CollisionCandidate) (index : ℕ) (distance : ℚ)
    (count : ℕ) : ℕ → CollisionCandidate :=
  match scanSeedAux c index distance count 0 none with
  | (none, _) => c
  | (some p, dup) =>
    fun k =>
      if k = p then { index := index, distance := distance }
      else shiftAux c p (startOf dup count) k

/-- The loop of `initializeCollisionCandidates` (lines 105-124): `rem`
remaining iterations starting at loop counter `i`, accumulating writes into
the `sortedCandidates` array `acc`.  Slot `i` receives the raw gathered index
at offset `index * count + i` with its squared Euclidean distance to
`position`, or `FLT_MAX` for the sentinel. -/
def initCollisionCandidatesAux (candidatesBuf : ℕ → ℕ) (positions : ℕ → Vec3)
    (index : ℕ) (position : Vec3) (count : ℕ) :
    ℕ → ℕ → (ℕ → CollisionCandidate) → ℕ → CollisionCandidate
  | 0, _, acc => acc
  | rem + 1, i, acc =>
    let colliderIndex := candidatesBuf (index * count + i)
    let cand : CollisionCandidate :=
      if colliderIndex ≠ UINT_MAX then
        { index := colliderIndex,
          distance := lengthSquared (position - positions colliderIndex) }
      else
        { index := colliderIndex, distance := FLT_MAX }
    initCollisionCandidatesAux candidatesBuf positions index position count
      rem (i + 1) (fun k => if k = i then cand else acc k)

/-- Source `initializeCollisionCandidates` (point-vs-point shape). -/
def initializeCollisionCandidates (candidatesBuf : ℕ → ℕ)
    (positions : ℕ → Vec3) (sortedCandidates : ℕ → CollisionCandidate)
    (index : ℕ) (position : Vec3) (count : ℕ) : ℕ → CollisionCandidate :=
  initCollisionCandidatesAux candidatesBuf positions index position count
    count 0 sortedCandidates

/-- The loop of `initializeTriangleCollisionCandidates` (lines 126-150):
slot `i` receives the raw gathered triangle index with the point-triangle
pseudo-distance of `position` to the triangle resolved through `getTriangle`
and `positions`, or `FLT_MAX` for the sentinel. -/
def initTriangleCollisionCandidatesAux (candidatesBuf : ℕ → ℕ)
    (positions : ℕ → Vec3) (getTriangle : ℕ → ℕ × ℕ × ℕ)
    (index : ℕ) (position : Vec3) (count : ℕ) :
    ℕ → ℕ → (ℕ → CollisionCandidate) → ℕ → CollisionCandidate
  | 0, _, acc => acc
  | rem + 1, i, acc =>
    let colliderIndex := candidatesBuf (index * count + i)
    let cand : CollisionCandidate :=
      if colliderIndex ≠ UINT_MAX then
        let tri := getTriangle colliderIndex
        { index := colliderIndex,
          distance := usdTriangle position (positions tri.1) (positions tri.2.1)
            (positions tri.2.2) }
      else
        { index := colliderIndex, distance := FLT_MAX }
    initTriangleCollisionCandidatesAux candidatesBuf positions getTriangle
      index position count rem (i + 1) (fun k => if k = i then cand else acc k)

/-- Source `initializeTriangleCollisionCandidates` (point-vs-triangle shape). -/
def initializeTriangleCollisionCandidates (candidatesBuf : ℕ → ℕ)
    (positions : ℕ → Vec3) (getTriangle : ℕ → ℕ × ℕ × ℕ)
    (index : ℕ) (position : Vec3)
    (collisionCandidates : ℕ → CollisionCandidate) (count : ℕ) :
    ℕ → CollisionCandidate :=
  initTriangleCollisionCandidatesAux candidatesBuf positions getTriangle index
    position count count 0 collisionCandidates

/-- Repeated application of `insertSeed`, one call per element of `calls`, in
list order. -/
def applySeeds (count : ℕ) :
    (ℕ → CollisionCandidate) → List (ℕ × ℚ) → ℕ → CollisionCandidate
  | c, [] => c
  | c, s :: rest => applySeeds count (insertSeed c s.1 s.2 count) rest

/-- The candidate list is sorted ascending by distance on its first `count`
slots. -/
def SortedCands (c : ℕ → CollisionCandidate) (count : ℕ) : Prop :=
  ∀ j, j < count → ∀ i, i < j → (c i).distance ≤ (c j).distance

/-- No two non-empty slots among the first `count` share an index: two slots
may only agree on their index when it is the sentinel `UINT_MAX`. -/
def DedupCands (c : ℕ → CollisionCandidate) (count : ℕ) : Prop :=
  ∀ j, j < count → ∀ i, i < j → (c i).index = (c j).index →
    (c j).index = UINT_MAX

instance (c : ℕ → CollisionCandidate) (count : ℕ) :
    Decidable (SortedCands c count) := by
  unfold SortedCands
  infer_instance

instance (c : ℕ → CollisionCandidate) (count : ℕ) :
    Decidable (DedupCands c count) := by
  unfold DedupCands
  infer_instance

/-! ## Characterization lemmas for the insertSeed loops -/

theorem shiftAux_eval (p : ℕ) :
    ∀ (j : ℕ) (c : ℕ → CollisionCandidate) (k : ℕ),
      shiftAux c p j k = if p < k ∧ k ≤ j then c (k - 1) else c k := by
  intro j
  induction j with
  | zero =>
    intro c k
    unfold shiftAux
    by_cases hk : p < k ∧ k ≤ 0
    · omega
    · rw [if_neg hk]
  | succ j ih =>
    intro c k
    unfold shiftAux
    by_cases hp : p < j + 1
    · rw [if_pos hp, ih]
      by_cases h2 : k = j + 1
      · subst h2
        simp only [if_neg (show ¬(p < j + 1 ∧ j + 1 ≤ j) by omega),
          if_pos (show p < j + 1 ∧ j + 1 ≤ j + 1 from ⟨hp, le_refl _⟩)]
        simp
      · by_cases h1 : p < k ∧ k ≤ j
        · simp only [if_pos h1, if_pos (show p < k ∧ k ≤ j + 1 by omega)]
          rw [if_neg (show ¬(k - 1 = j + 1) by omega)]
        · simp only [if_neg h1, if_neg (show ¬(p < k ∧ k ≤ j + 1) by omega),
            if_neg h2]
    · rw [if_neg hp, if_neg (show ¬(p < k ∧ k ≤ j + 1) by omega)]

theorem scan_fst_acc (c : ℕ → CollisionCandidate) (idx : ℕ) (dist : ℚ) :
    ∀ (rem i q : ℕ), (scanSeedAux c idx dist rem i (some q)).1 = some q := by
  intro rem
  induction rem with
  | zero => intro i q; rfl
  | succ rem ih =>
    intro i q
    unfold scanSeedAux
    rw [if_neg (show ¬(some q = none ∧ dist ≤ (c i).distance) by simp)]
    by_cases h : (c i).index = idx
    · rw [if_pos h]
    · rw [if_neg h]
      exact ih (i + 1) q

theorem scan_fst_spec (c : ℕ → CollisionCandidate) (idx : ℕ) (dist : ℚ) :
    ∀ (rem i p : ℕ), (scanSeedAux c idx dist rem i none).1 = some p →
      i ≤ p ∧ p < i + rem ∧ dist ≤ (c p).distance ∧
        ∀ k, i ≤ k → k < p → (c k).distance < dist := by
  intro rem
  induction rem with
  | zero =>
    intro i p h
    exact absurd h (by simp [scanSeedAux])
  | succ rem ih =>
    intro i p h
    unfold scanSeedAux at h
    simp only [] at h
    by_cases hle : dist ≤ (c i).distance
    · rw [if_pos (show True ∧ dist ≤ (c i).distance from ⟨trivial, hle⟩)] at h
      by_cases hm : (c i).index = idx
      · rw [if_pos hm] at h
        have h2 : (some i : Option ℕ) = some p := h
        obtain rfl : i = p := Option.some_inj.mp h2
        exact ⟨le_refl i, by omega, hle, fun k hk1 hk2 => by omega⟩
      · rw [if_neg hm] at h
        rw [scan_fst_acc] at h
        obtain rfl : i = p := Option.some_inj.mp h
        exact ⟨le_refl i, by omega, hle, fun k hk1 hk2 => by omega⟩
    · rw [if_neg (show ¬(True ∧ dist ≤ (c i).distance) by simp [hle])] at h
      by_cases hm : (c i).index = idx
      · rw [if_pos hm] at h
        exact absurd h (by simp)
      · rw [if_neg hm] at h
        obtain ⟨h1, h2, h3, h4⟩ := ih (i + 1) p h
        refine ⟨by omega, by omega, h3, fun k hk1 hk2 => ?_⟩
        by_cases hk : k = i
        · subst hk
          exact lt_of_not_le hle
        · exact h4 k (by omega) hk2

theorem scan_snd_spec (c : ℕ → CollisionCandidate) (idx : ℕ) (dist : ℚ) :
    ∀ (rem i : ℕ) (ip : Option ℕ) (d : ℕ),
      (scanSeedAux c idx dist rem i ip).2 = some d →
      i ≤ d ∧ d < i + rem ∧ (c d).index = idx ∧
        ∀ k, i ≤ k → k < d → (c k).index ≠ idx := by
  intro rem
  induction rem with
  | zero =>
    intro i ip d h
    exact absurd h (by simp [scanSeedAux])
  | succ rem ih =>
    intro i ip d h
    unfold scanSeedAux at h
    by_cases hm : (c i).index = idx
    · rw [if_pos hm] at h
      have h2 : (some i : Option ℕ) = some d := h
      obtain rfl : i = d := Option.some_inj.mp h2
      exact ⟨le_refl i, by omega, hm, fun k hk1 hk2 => by omega⟩
    · rw [if_neg hm] at h
      obtain ⟨h1, h2, h3, h4⟩ := ih (i + 1) _ d h
      refine ⟨by omega, by omega, h3, fun k hk1 hk2 => ?_⟩
      by_cases hk : k = i
      · subst hk
        exact hm
      · exact h4 k (by omega) hk2

theorem scan_snd_none (c : ℕ → CollisionCandidate) (idx : ℕ) (dist : ℚ) :
    ∀ (rem i : ℕ) (ip : Option ℕ),
      (scanSeedAux c idx dist rem i ip).2 = none →
      ∀ k, i ≤ k → k < i + rem → (c k).index ≠ idx := by
  intro rem
  induction rem with
  | zero =>
    intro i ip _ k hk1 hk2
    omega
  | succ rem ih =>
    intro i ip h k hk1 hk2
    unfold scanSeedAux at h
    by_cases hm : (c i).index = idx
    · rw [if_pos hm] at h
      exact absurd h (by simp)
    · rw [if_neg hm] at h
      by_cases hk : k = i
      · subst hk
        exact hm
      · exact ih (i + 1) _ h k (by omega) (by omega)

theorem scan_fst_le_snd (c : ℕ → CollisionCandidate) (idx : ℕ) (dist : ℚ) :
    ∀ (rem i p d : ℕ),
      (scanSeedAux c idx dist rem i none).1 = some p →
      (scanSeedAux c idx dist rem i none).2 = some d → p ≤ d := by
  intro rem
  induction rem with
  | zero =>
    intro i p d h _
    exact absurd h (by simp [scanSeedAux])
  | succ rem ih =>
    intro i p d h1 h2
    unfold scanSeedAux at h1 h2
    simp only [] at h1 h2
    by_cases hle : dist ≤ (c i).distance
    · rw [if_pos (show True ∧ dist ≤ (c i).distance from ⟨trivial, hle⟩)] at h1 h2
      by_cases hm : (c i).index = idx
      · rw [if_pos hm] at h1 h2
        have g1 : (some i : Option ℕ) = some p := h1
        have g2 : (some i : Option ℕ) = some d := h2
        have e1 : i = p := Option.some_inj.mp g1
        have e2 : i = d := Option.some_inj.mp g2
        omega
      · rw [if_neg hm] at h1 h2
        rw [scan_fst_acc] at h1
        have e1 : i = p := Option.some_inj.mp h1
        obtain ⟨hd, _, _, _⟩ := scan_snd_spec c idx dist rem (i + 1) (some i) d h2
        omega
    · rw [if_neg (show ¬(True ∧ dist ≤ (c i).distance) by simp [hle])] at h1 h2
      by_cases hm : (c i).index = idx
      · rw [if_pos hm] at h1
        exact absurd h1 (by simp)
      · rw [if_neg hm] at h1 h2
        exact ih (i + 1) p d h1 h2

/-- The index relocation of the shift loop: slots in `(p, start]` take the
value of their predecessor, all other slots keep their own. -/
def shiftMap (p start k : ℕ) : ℕ :=
  if p < k ∧ k ≤ start then k - 1 else k

theorem shiftMap_le (p start k : ℕ) : shiftMap p start k ≤ k := by
  unfold shiftMap
  split_ifs <;> omega

theorem shiftMap_lt (p start : ℕ) {i j : ℕ} (hij : i < j) (hip : i ≠ p)
    (hjp : j ≠ p) : shiftMap p start i < shiftMap p start j := by
  unfold shiftMap
  split_ifs <;> omega

theorem insertSeed_eval (c : ℕ → CollisionCandidate) (idx : ℕ) (dist : ℚ)
    (count p : ℕ) (dup : Option ℕ)
    (h : scanSeedAux c idx dist count 0 none = (some p, dup)) (k : ℕ) :
    insertSeed c idx dist count k =
      if k = p then { index := idx, distance := dist }
      else c (shiftMap p (startOf dup count) k) := by
  unfold insertSeed
  rw [h]
  show (if k = p then ({ index := idx, distance := dist } : CollisionCandidate)
    else shiftAux c p (startOf dup count) k) = _
  by_cases hk : k = p
  · rw [if_pos hk, if_pos hk]
  · rw [if_neg hk, if_neg hk, shiftAux_eval]
    unfold shiftMap
    rw [apply_ite c]

theorem insertSeed_of_fst_none (c : ℕ → CollisionCandidate) (idx : ℕ)
    (dist : ℚ) (count : ℕ)
    (h : (scanSeedAux c idx dist count 0 none).1 = none) :
    insertSeed c idx dist count = c := by
  unfold insertSeed
  rcases hs : scanSeedAux c idx dist count 0 none with ⟨fst, snd⟩
  rw [hs] at h
  simp only at h
  subst h
  rfl

theorem insertSeed_sorted (c : ℕ → CollisionCandidate) (idx : ℕ) (dist : ℚ)
    (count : ℕ) (hs : SortedCands c count) :
    SortedCands (insertSeed c idx dist count) count := by
  rcases hscan : scanSeedAux c idx dist count 0 none with ⟨fst, dup⟩
  cases fst with
  | none =>
    rw [insertSeed_of_fst_none c idx dist count (by rw [hscan])]
    exact hs
  | some p =>
    obtain ⟨-, hpc, hple, hlt⟩ := scan_fst_spec c idx dist count 0 p (by rw [hscan])
    have hp : p < count := by omega
    have hS : p ≤ startOf dup count ∧ startOf dup count < count := by
      cases dup with
      | none =>
        simp only [startOf]
        omega
      | some d =>
        obtain ⟨-, hdc, -, -⟩ := scan_snd_spec c idx dist count 0 none d (by rw [hscan])
        have hpd := scan_fst_le_snd c idx dist count 0 p d (by rw [hscan]) (by rw [hscan])
        simp only [startOf]
        omega
    intro j hj i hij
    rw [insertSeed_eval c idx dist count p dup hscan,
      insertSeed_eval c idx dist count p dup hscan]
    by_cases hip : i = p
    · rw [if_pos hip, if_neg (show ¬ j = p by omega)]
      have hj2 : p < j := by omega
      have hmem : p ≤ shiftMap p (startOf dup count) j := by
        unfold shiftMap
        split_ifs <;> omega
      have hjc : shiftMap p (startOf dup count) j < count :=
        lt_of_le_of_lt (shiftMap_le p (startOf dup count) j) hj
      rcases eq_or_lt_of_le hmem with he | hl
      · rw [← he]
        exact hple
      · exact le_trans hple (hs _ hjc p hl)
    · by_cases hjp : j = p
      · rw [if_neg hip, if_pos hjp]
        have hlt2 : i < p := by omega
        have hmi : shiftMap p (startOf dup count) i = i := by
          unfold shiftMap
          split_ifs <;> omega
        rw [hmi]
        exact le_of_lt (hlt i (by omega) hlt2)
      · rw [if_neg hip, if_neg hjp]
        have hjc : shiftMap p (startOf dup count) j < count :=
          lt_of_le_of_lt (shiftMap_le p (startOf dup count) j) hj
        exact hs _ hjc _ (shiftMap_lt p (startOf dup count) hij hip hjp)

theorem insertSeed_dedup (c : ℕ → CollisionCandidate) (idx : ℕ) (dist : ℚ)
    (count : ℕ) (hd : DedupCands c count) :
    DedupCands (insertSeed c idx dist count) count := by
  rcases hscan : scanSeedAux c idx dist count 0 none with ⟨fst, dup⟩
  cases fst with
  | none =>
    rw [insertSeed_of_fst_none c idx dist count (by rw [hscan])]
    exact hd
  | some p =>
    obtain ⟨-, hpc, -, -⟩ := scan_fst_spec c idx dist count 0 p (by rw [hscan])
    intro j hj i hij h1
    rw [insertSeed_eval c idx dist count p dup hscan] at h1 ⊢
    rw [insertSeed_eval c idx dist count p dup hscan] at h1
    by_cases hip : i = p
    · rw [if_pos hip] at h1
      rw [if_neg (show ¬ j = p by omega)] at h1 ⊢
      have hjc : shiftMap p (startOf dup count) j < count :=
        lt_of_le_of_lt (shiftMap_le p (startOf dup count) j) hj
      cases dup with
      | none =>
        have hnone := scan_snd_none c idx dist count 0 none (by rw [hscan])
        exact absurd h1.symm (hnone _ (by omega) (by omega))
      | some d =>
        obtain ⟨-, hdc, hdidx, hfirst⟩ :=
          scan_snd_spec c idx dist count 0 none d (by rw [hscan])
        have hpd := scan_fst_le_snd c idx dist count 0 p d (by rw [hscan]) (by rw [hscan])
        have hσ : shiftMap p (startOf (some d) count) j ≠ d := by
          simp only [shiftMap, startOf]
          split_ifs <;> omega
        rcases lt_or_gt_of_ne hσ with hless | hmore
        · exact absurd h1.symm (hfirst _ (by omega) hless)
        · have := hd _ hjc d hmore (hdidx.trans h1)
          exact this
    · by_cases hjp : j = p
      · rw [if_neg hip, if_pos hjp] at h1
        have hmi : shiftMap p (startOf dup count) i = i := by
          unfold shiftMap
          split_ifs <;> omega
        rw [hmi] at h1
        cases dup with
        | none =>
          have hnone := scan_snd_none c idx dist count 0 none (by rw [hscan])
          exact absurd h1 (hnone i (by omega) (by omega))
        | some d =>
          obtain ⟨-, hdc, hdidx, hfirst⟩ :=
            scan_snd_spec c idx dist count 0 none d (by rw [hscan])
          have hpd := scan_fst_le_snd c idx dist count 0 p d (by rw [hscan]) (by rw [hscan])
          exact absurd h1 (hfirst i (by omega) (by omega))
      · rw [if_neg hip, if_neg hjp] at h1
        rw [if_neg hjp]
        have hjc : shiftMap p (startOf dup count) j < count :=
          lt_of_le_of_lt (shiftMap_le p (startOf dup count) j) hj
        exact hd _ hjc _ (shiftMap_lt p (startOf dup count) hij hip hjp) h1

theorem scan_fst_none_of_far (c : ℕ → CollisionCandidate) (idx : ℕ) (dist : ℚ) :
    ∀ (rem i : ℕ), (∀ k, i ≤ k → k < i + rem → (c k).distance < dist) →
      (scanSeedAux c idx dist rem i none).1 = none := by
  intro rem
  induction rem with
  | zero =>
    intro i _
    rfl
  | succ rem ih =>
    intro i hfar
    unfold scanSeedAux
    simp only []
    rw [if_neg (show ¬(True ∧ dist ≤ (c i).distance) by
      simp [not_le.mpr (hfar i (le_refl i) (by omega))])]
    by_cases hm : (c i).index = idx
    · rw [if_pos hm]
    · rw [if_neg hm]
      exact ih (i + 1) (fun k hk1 hk2 => hfar k (by omega) (by omega))

theorem scan_fst_none_of_early_dup (c : ℕ → CollisionCandidate) (idx : ℕ)
    (dist : ℚ) :
    ∀ (rem i d : ℕ), i ≤ d → d < i + rem → (c d).index = idx →
      (∀ k, i ≤ k → k ≤ d → (c k).distance < dist) →
      (∀ k, i ≤ k → k < d → (c k).index ≠ idx) →
      (scanSeedAux c idx dist rem i none).1 = none := by
  intro rem
  induction rem with
  | zero =>
    intro i d h1 h2
    omega
  | succ rem ih =>
    intro i d h1 h2 hdup hfar hfirst
    unfold scanSeedAux
    simp only []
    rw [if_neg (show ¬(True ∧ dist ≤ (c i).distance) by
      simp [not_le.mpr (hfar i (le_refl i) (by omega))])]
    by_cases hm : (c i).index = idx
    · rw [if_pos hm]
    · rw [if_neg hm]
      have hid : i ≠ d := fun he => hm (he ▸ hdup)
      exact ih (i + 1) d (by omega) (by omega) hdup
        (fun k hk1 hk2 => hfar k (by omega) hk2)
        (fun k hk1 hk2 => hfirst k (by omega) hk2)

/-- The no-insert-position case of `insertSeed`: if the new distance is
strictly worse than every slot's, or the duplicate is encountered (at the
first slot holding `index`) before any slot whose distance qualifies, the
scan yields no insert position and the whole call leaves every slot
unchanged. -/
theorem insertSeed_noop (c : ℕ → CollisionCandidate) (idx : ℕ) (dist : ℚ)
    (count : ℕ)
    (h : (∀ k, k < count → (c k).distance < dist) ∨
      (∃ d, d < count ∧ (c d).index = idx ∧
        (∀ k, k ≤ d → (c k).distance < dist) ∧
        (∀ k, k < d → (c k).index ≠ idx))) :
    insertSeed c idx dist count = c := by
  apply insertSeed_of_fst_none
  rcases h with hfar | ⟨d, hd, hdup, hfar, hfirst⟩
  · exact scan_fst_none_of_far c idx dist count 0
      (fun k _ hk => hfar k (by omega))
  · exact scan_fst_none_of_early_dup c idx dist count 0 d (by omega) (by omega)
      hdup (fun k _ hk => hfar k hk) (fun k _ hk => hfirst k hk)

/-! ## Characterization of the initialization loops -/

theorem initCC_eval (candidatesBuf : ℕ → ℕ) (positions : ℕ → Vec3)
    (index : ℕ) (position : Vec3) (count : ℕ) :
    ∀ (rem i : ℕ) (acc : ℕ → CollisionCandidate) (k : ℕ),
      initCollisionCandidatesAux candidatesBuf positions index position count
          rem i acc k =
        if i ≤ k ∧ k < i + rem then
          if candidatesBuf (index * count + k) ≠ UINT_MAX then
            { index := candidatesBuf (index * count + k),
              distance := lengthSquared
                (position - positions (candidatesBuf (index * count + k))) }
          else
            { index := candidatesBuf (index * count + k), distance := FLT_MAX }
        else acc k := by
  intro rem
  induction rem with
  | zero =>
    intro i acc k
    unfold initCollisionCandidatesAux
    rw [if_neg (show ¬(i ≤ k ∧ k < i + 0) by omega)]
  | succ rem ih =>
    intro i acc k
    unfold initCollisionCandidatesAux
    simp only []
    rw [ih]
    by_cases h1 : i + 1 ≤ k ∧ k < i + 1 + rem
    · rw [if_pos h1, if_pos (show i ≤ k ∧ k < i + (rem + 1) by omega)]
    · rw [if_neg h1]
      by_cases h2 : k = i
      · rw [if_pos h2, if_pos (show i ≤ k ∧ k < i + (rem + 1) by omega), h2]
      · rw [if_neg h2, if_neg (show ¬(i ≤ k ∧ k < i + (rem + 1)) by omega)]

theorem initTriCC_eval (candidatesBuf : ℕ → ℕ) (positions : ℕ → Vec3)
    (getTriangle : ℕ → ℕ × ℕ × ℕ) (index : ℕ) (position : Vec3) (count : ℕ) :
    ∀ (rem i : ℕ) (acc : ℕ → CollisionCandidate) (k : ℕ),
      initTriangleCollisionCandidatesAux candidatesBuf positions getTriangle
          index position count rem i acc k =
        if i ≤ k ∧ k < i + rem then
          if candidatesBuf (index * count + k) ≠ UINT_MAX then
            { index := candidatesBuf (index * count + k),
              distance := usdTriangle position
                (positions (getTriangle (candidatesBuf (index * count + k))).1)
                (positions (getTriangle (candidatesBuf (index * count + k))).2.1)
                (positions (getTriangle (candidatesBuf (index * count + k))).2.2) }
          else
            { index := candidatesBuf (index * count + k), distance := FLT_MAX }
        else acc k := by
  intro rem
  induction rem with
  | zero =>
    intro i acc k
    unfold initTriangleCollisionCandidatesAux
    rw [if_neg (show ¬(i ≤ k ∧ k < i + 0) by omega)]
  | succ rem ih =>
    intro i acc k
    unfold initTriangleCollisionCandidatesAux
    simp only []
    rw [ih]
    by_cases h1 : i + 1 ≤ k ∧ k < i + 1 + rem
    · rw [if_pos h1, if_pos (show i ≤ k ∧ k < i + (rem + 1) by omega)]
    · rw [if_neg h1]
      by_cases h2 : k = i
      · rw [if_pos h2, if_pos (show i ≤ k ∧ k < i + (rem + 1) by omega), h2]
      · rw [if_neg h2, if_neg (show ¬(i ≤ k ∧ k < i + (rem + 1)) by omega)]

/-! ## Geometry lemmas for the distance functions -/

theorem edge_term_zero (u w : Vec3) :
    lengthSquared (saturate (dot u (w - w) / lengthSquared u) • u - (w - w)) = 0 := by
  have h0 : dot u (w - w) = 0 := by simp [dot]
  have hs : saturate 0 = 0 := by
    unfold saturate
    rw [max_self]
    exact min_eq_left (by norm_num)
  rw [h0, zero_div, hs]
  simp [lengthSquared, dot]

theorem usdTriangle_vertex_a (a b c : Vec3) : usdTriangle a a b c = 0 := by
  unfold usdTriangle
  simp only []
  split_ifs with hc
  · rw [edge_term_zero (b - a) a]
    rw [min_eq_left (lengthSquared_nonneg _), min_eq_left (lengthSquared_nonneg _)]
  · have h0 : dot (cross (b - a) (a - c)) (a - a) = 0 := by simp [dot]
    rw [h0, mul_zero, zero_div]

theorem usdTriangle_vertex_b (a b c : Vec3) : usdTriangle b a b c = 0 := by
  unfold usdTriangle
  simp only []
  split_ifs with hc
  · rw [edge_term_zero (c - b) b]
    rw [min_eq_right (lengthSquared_nonneg _), min_eq_left (lengthSquared_nonneg _)]
  · have h0 : dot (cross (b - a) (a - c)) (b - a) = 0 := by
      simp [dot, cross]
      ring
    rw [h0, mul_zero, zero_div]

theorem usdTriangle_vertex_c (a b c : Vec3) : usdTriangle c a b c = 0 := by
  unfold usdTriangle
  simp only []
  split_ifs with hc
  · rw [edge_term_zero (a - c) c]
    rw [min_eq_right (le_min (lengthSquared_nonneg _) (lengthSquared_nonneg _))]
  · have h0 : dot (cross (b - a) (a - c)) (c - a) = 0 := by
      simp [dot, cross]
      ring
    rw [h0, mul_zero, zero_div]

theorem usdTriangle_centroid_normal (a b c : Vec3) (t : ℚ)
    (hnor : lengthSquared (cross (b - a) (a - c)) ≠ 0) :
    usdTriangle ((1/3 : ℚ) • (a + b + c) + t • cross (b - a) (a - c)) a b c
      = t ^ 2 * lengthSquared (cross (b - a) (a - c)) := by
  have hpos : 0 < lengthSquared (cross (b - a) (a - c)) :=
    lengthSquared_pos_of_ne _ hnor
  have h1 : dot (cross (b - a) (cross (b - a) (a - c)))
      ((1/3 : ℚ) • (a + b + c) + t • cross (b - a) (a - c) - a)
      = lengthSquared (cross (b - a) (a - c)) / 3 := by
    simp [dot, cross, lengthSquared]
    ring
  have h2 : dot (cross (c - b) (cross (b - a) (a - c)))
      ((1/3 : ℚ) • (a + b + c) + t • cross (b - a) (a - c) - b)
      = lengthSquared (cross (b - a) (a - c)) / 3 := by
    simp [dot, cross, lengthSquared]
    ring
  have h3 : dot (cross (a - c) (cross (b - a) (a - c)))
      ((1/3 : ℚ) • (a + b + c) + t • cross (b - a) (a - c) - c)
      = lengthSquared (cross (b - a) (a - c)) / 3 := by
    simp [dot, cross, lengthSquared]
    ring
  have h4 : dot (cross (b - a) (a - c))
      ((1/3 : ℚ) • (a + b + c) + t • cross (b - a) (a - c) - a)
      = t * lengthSquared (cross (b - a) (a - c)) := by
    simp [dot, cross, lengthSquared]
    ring
  unfold usdTriangle
  simp only []
  rw [h1, h2, h3, h4]
  rw [sign_of_pos (div_pos hpos (by norm_num))]
  rw [if_neg (by norm_num)]
  rw [div_eq_iff hnor]
  ring

/-- Validity of a barycentric coordinate triple: componentwise in `[0, 1]`
and summing to `1`. -/
def BaryValid (v : Vec3) : Prop :=
  0 ≤ v.x ∧ v.x ≤ 1 ∧ 0 ≤ v.y ∧ v.y ≤ 1 ∧ 0 ≤ v.z ∧ v.z ≤ 1 ∧
    v.x + v.y + v.z = 1

theorem bary_edge12 (q : ℚ) (h0 : 0 ≤ q) (h1 : q ≤ 1) :
    BaryValid ⟨0, 1 - q, q⟩ := by
  unfold BaryValid
  refine ⟨le_refl 0, by norm_num, by simp; linarith, by simp; linarith,
    by simp [h0], by simp [h1], by simp⟩

theorem bary_edge20 (q : ℚ) (h0 : 0 ≤ q) (h1 : q ≤ 1) :
    BaryValid ⟨q, 0, 1 - q⟩ := by
  unfold BaryValid
  refine ⟨by simp [h0], by simp [h1], le_refl 0, by norm_num,
    by simp; linarith, by simp; linarith, by ring⟩

theorem bary_edge01 (q : ℚ) (h0 : 0 ≤ q) (h1 : q ≤ 1) :
    BaryValid ⟨1 - q, q, 0⟩ := by
  unfold BaryValid
  refine ⟨by simp; linarith, by simp; linarith, by simp [h0], by simp [h1],
    le_refl 0, by norm_num, by ring⟩

theorem bary_interior (s t : ℚ) (h0 : ¬(1 - s - t < 0)) (h1 : ¬(s < 0))
    (h2 : ¬(t < 0)) : BaryValid ⟨1 - s - t, s, t⟩ := by
  unfold BaryValid
  refine ⟨by simp; linarith, by simp; linarith, by simp; linarith,
    by simp; linarith, by simp; linarith, by simp; linarith, by ring⟩

theorem bary_center : BaryValid ⟨1/3, 1/3, 1/3⟩ := by
  unfold BaryValid
  norm_num

theorem uvw_cases (dete s t e12 e20 e01 : ℚ) :
    BaryValid (if dete ≠ 0 then
      (if 1 - s - t < 0 then (⟨0, 1 - saturate e12, saturate e12⟩ : Vec3)
       else if s < 0 then ⟨saturate e20, 0, 1 - saturate e20⟩
       else if t < 0 then ⟨1 - saturate e01, saturate e01, 0⟩
       else ⟨1 - s - t, s, t⟩)
      else ⟨1/3, 1/3, 1/3⟩) := by
  split_ifs with hd h1 h2 h3
  · exact bary_edge12 _ (saturate_nonneg _) (saturate_le_one _)
  · exact bary_edge20 _ (saturate_nonneg _) (saturate_le_one _)
  · exact bary_edge01 _ (saturate_nonneg _) (saturate_le_one _)
  · exact bary_interior _ _ h1 h2 h3
  · exact bary_center

set_option maxHeartbeats 1000000 in
theorem uvw_valid (p0 p1 p2 p : Vec3) :
    BaryValid (closestPointTriangleUVW p0 p1 p2 p) :=
  uvw_cases _ _ _ _ _ _

/-! ## Concrete instances used by the witnesses -/

/-- The K = 2 list `[(1, 1.0), (2, 2.0)]` of the spec's eviction scenario,
sentinel-padded beyond the first two slots. -/
def exList : ℕ → CollisionCandidate := fun i =>
  if i = 0 then ⟨1, 1⟩ else if i = 1 then ⟨2, 2⟩ else ⟨UINT_MAX, FLT_MAX⟩

def vecA : Vec3 := ⟨0, 0, 0⟩

def vecB : Vec3 := ⟨1, 0, 0⟩

def vecC : Vec3 := ⟨0, 1, 0⟩

/-- A raw gathered-candidate buffer: slot 0 holds element 7, slot 1 the
sentinel. -/
def exBuf : ℕ → ℕ := fun k => if k = 0 then 7 else UINT_MAX

/-- A second buffer agreeing with `exBuf` on the element-0 slice `[0, 2)` and
differing elsewhere. -/
def exBuf2 : ℕ → ℕ := fun k => if k < 2 then exBuf k else 42

def exPos : ℕ → Vec3 := fun _ => ⟨1, 2, 3⟩

/-- Positions agreeing with `exPos` on element 7 (the only index `exBuf`
makes the initialization read) and differing elsewhere. -/
def exPos2 : ℕ → Vec3 := fun j => if j = 7 then ⟨1, 2, 3⟩ else ⟨9, 9, 9⟩

def exTri : ℕ → ℕ × ℕ × ℕ := fun _ => (0, 1, 2)

def exAcc : ℕ → CollisionCandidate := fun _ => ⟨UINT_MAX, FLT_MAX⟩

theorem applySeeds_sorted (count : ℕ) (pre : List (ℕ × ℚ)) :
    ∀ c, SortedCands c count → SortedCands (applySeeds count c pre) count := by
  induction pre with
  | nil =>
    intro c hs
    exact hs
  | cons s rest ih =>
    intro c hs
    exact ih _ (insertSeed_sorted c s.1 s.2 count hs)

/-! ## Claim theorems -/

/-- Claim C1: for every CandidateList sorted ascending by distance (sentinel
slots, carrying the maximal sentinel distance, necessarily at the end) and any
sequence of `insertSeed` calls with non-decreasing distances, the list is
sorted ascending by distance after every call, i.e. after every prefix of the
call sequence. -/
theorem C1_insertSeed_sortedness_invariant (c : ℕ → CollisionCandidate)
    (count : ℕ) (calls pre suf : List (ℕ × ℚ)) (hs : SortedCands c count)
    (hmono : calls.Chain' fun s1 s2 => s1.2 ≤ s2.2)
    (hsplit : calls = pre ++ suf) :
    SortedCands (applySeeds count c pre) count :=
  applySeeds_sorted count pre c hs

theorem C1_witness :
    SortedCands exList 2 ∧
    ([((1 : ℕ), (1 : ℚ)), (2, 2)]).Chain' (fun s1 s2 => s1.2 ≤ s2.2) ∧
    SortedCands (applySeeds 2 exList [((1 : ℕ), (1 : ℚ))]) 2 :=
  ⟨by decide,
    List.chain'_cons.mpr ⟨by norm_num, List.chain'_singleton _⟩,
    C1_insertSeed_sortedness_invariant exList 2 [(1, 1), (2, 2)] [(1, 1)]
      [(2, 2)] (by decide)
      (List.chain'_cons.mpr ⟨by norm_num, List.chain'_singleton _⟩) rfl⟩

/-- Claim C2: for every sorted and deduplicated CandidateList, two
`insertSeed` calls with the same index (and any distances) never leave two
non-empty slots sharing that index: two slots of the result can only both
hold that index when it is the sentinel `UINT_MAX`. -/
theorem C2_insertSeed_no_duplicate_after_two_offers
    (c : ℕ → CollisionCandidate) (count idx : ℕ) (d1 d2 : ℚ)
    (hs : SortedCands c count) (hd : DedupCands c count) :
    ∀ i, i < count → ∀ j, j < count → i ≠ j →
      ((insertSeed (insertSeed c idx d1 count) idx d2 count) i).index = idx →
      ((insertSeed (insertSeed c idx d1 count) idx d2 count) j).index = idx →
      idx = UINT_MAX := by
  intro i hi j hj hij h1 h2
  have hd2 := insertSeed_dedup _ idx d2 count (insertSeed_dedup c idx d1 count hd)
  rcases lt_or_gt_of_ne hij with hlt | hgt
  · rw [← h2]
    exact hd2 j hj i hlt (h1.trans h2.symm)
  · rw [← h1]
    exact hd2 i hi j hgt (h2.trans h1.symm)

theorem C2_witness :
    SortedCands exList 2 ∧ DedupCands exList 2 ∧
    (((insertSeed (insertSeed exList 1 1 2) 1 (mkRat 1 2) 2) 0).index = 1 →
      ((insertSeed (insertSeed exList 1 1 2) 1 (mkRat 1 2) 2) 1).index = 1 →
      (1 : ℕ) = UINT_MAX) :=
  ⟨by decide, by decide,
    C2_insertSeed_no_duplicate_after_two_offers exList 2 1 1 (mkRat 1 2)
      (by decide) (by decide) 0 (by decide) 1 (by decide) (by decide)⟩

/-- Claim C3: for every sorted CandidateList, if `insertSeed` finds no insert
position — the new distance strictly exceeds every scanned slot's distance, or
the duplicate of the index (at its first occurrence) is encountered before any
slot with distance at least the new distance — then every slot is left exactly
unchanged: no insertion and no eviction. -/
theorem C3_insertSeed_no_insert_position_frame (c : ℕ → CollisionCandidate)
    (idx : ℕ) (dist : ℚ) (count : ℕ) (hs : SortedCands c count)
    (h : (∀ k, k < count → (c k).distance < dist) ∨
      (∃ d, d < count ∧ (c d).index = idx ∧
        (∀ k, k ≤ d → (c k).distance < dist) ∧
        (∀ k, k < d → (c k).index ≠ idx))) :
    insertSeed c idx dist count = c :=
  insertSeed_noop c idx dist count h

theorem C3_witness :
    SortedCands exList 2 ∧ (∀ k, k < 2 → (exList k).distance < 3) ∧
      insertSeed exList 5 3 2 = exList :=
  ⟨by decide, by decide,
    C3_insertSeed_no_insert_position_frame exList 5 3 2 (by decide)
      (Or.inl (by decide))⟩

/-- Claim C4: with capacity 2 and the list `[(1, 1.0), (2, 2.0)]`,
`insertSeed (3, 1.5)` yields `[(1, 1.0), (3, 1.5)]` (index 2 evicted), and a
subsequent `insertSeed (1, 0.5)` yields `[(1, 0.5), (3, 1.5)]` (index 1
relocated, not duplicated). -/
theorem C4_insertSeed_eviction_and_relocation_scenario :
    insertSeed exList 3 (mkRat 3 2) 2 0 = { index := 1, distance := 1 } ∧
    insertSeed exList 3 (mkRat 3 2) 2 1 = { index := 3, distance := mkRat 3 2 } ∧
    insertSeed (insertSeed exList 3 (mkRat 3 2) 2) 1 (mkRat 1 2) 2 0 =
      { index := 1, distance := mkRat 1 2 } ∧
    insertSeed (insertSeed exList 3 (mkRat 3 2) 2) 1 (mkRat 1 2) 2 1 =
      { index := 3, distance := mkRat 3 2 } :=
  ⟨by decide, by decide, by decide, by decide⟩

theorem toInt32_bounds (n : ℕ) :
    -2147483648 ≤ toInt32 n ∧ toInt32 n < 2147483648 := by
  unfold toInt32
  have h := Nat.mod_lt n (show 0 < 4294967296 by norm_num)
  split_ifs with hlt <;> omega

/-- Claim C5, counterexample: at cell `(-1, 0, 0)` and capacity 7 the code's
slot differs from the claimed signed-truncating-modulo-then-abs slot.  The
hash is `-92837111`; the code converts it to `uint` before `%` (usual
arithmetic conversions), giving `(2^32 - 92837111) % 7 = 1`, while the claimed
computation gives `abs(-92837111 tmod 7) = 3`. -/
theorem C5_counterexample :
    computeHash (-1, 0, 0) = -92837111 ∧
    getHash (-1, 0, 0) 7 = 1 ∧
    getHashSpecModel (-1, 0, 0) 7 = 3 ∧
    getHash (-1, 0, 0) 7 ≠ getHashSpecModel (-1, 0, 0) 7 :=
  ⟨by decide, by decide, by decide, by decide⟩

/-- Claim C5 as amended: the hash is the signed 32-bit value
`(x * 92837111) ^ (y * 689287499) ^ (z * 283923481)` with two's-complement
wraparound (bounds proved below), but the slot reduces the hash's unsigned
32-bit reinterpretation modulo the capacity — in `hash % hashTableCapacity`
the `int` operand is converted to `uint` by the usual arithmetic conversions,
so the remainder is already non-negative and `abs` is the identity.  The
claimed signed-truncating-modulo-then-abs computation agrees exactly when the
hash is non-negative. -/
theorem C5_getHash_unsigned_reduction (x y z : ℤ) (cap : ℕ) (hcap : 0 < cap) :
    getHash (x, y, z) cap = ((computeHash (x, y, z)) % (4294967296 : ℤ)).toNat % cap ∧
    getHash (x, y, z) cap < cap ∧
    -2147483648 ≤ computeHash (x, y, z) ∧ computeHash (x, y, z) < 2147483648 ∧
    (0 ≤ computeHash (x, y, z) →
      getHash (x, y, z) cap = getHashSpecModel (x, y, z) cap) := by
  have hb : -2147483648 ≤ computeHash (x, y, z) ∧
      computeHash (x, y, z) < 2147483648 := by
    unfold computeHash
    exact toInt32_bounds _
  refine ⟨rfl, Nat.mod_lt _ hcap, hb.1, hb.2, fun h => ?_⟩
  unfold getHash getHashSpecModel toUInt32 tmodZ
  rw [if_pos h]
  rw [Int.emod_eq_of_lt h (by omega)]
  simp only [Int.toNat_natCast]
  omega

/-- Claim C5 amended, witness at cell `(1, 0, 0)` (non-negative hash) and
capacity 7. -/
theorem C5_witness :
    (0 : ℕ) < 7 ∧
    (getHash (1, 0, 0) 7 = ((computeHash (1, 0, 0)) % (4294967296 : ℤ)).toNat % 7 ∧
      getHash (1, 0, 0) 7 < 7 ∧
      -2147483648 ≤ computeHash (1, 0, 0) ∧ computeHash (1, 0, 0) < 2147483648 ∧
      (0 ≤ computeHash (1, 0, 0) →
        getHash (1, 0, 0) 7 = getHashSpecModel (1, 0, 0) 7)) :=
  ⟨by decide, C5_getHash_unsigned_reduction 1 0 0 7 (by decide)⟩

/-- Claim C6: for a non-degenerate triangle `(a, b, c)` (face normal
`nor = (b - a) × (a - c)` non-zero), a point directly above the centroid along
the normal is `p = centroid + t • nor`; its height is `h = |t| * |nor|` and
`usdTriangle` returns `t^2 * |nor|^2 = h^2`.  For `p` equal to any of the
three vertices it returns 0. -/
theorem C6_usdTriangle_centroid_height_and_vertices (a b c : Vec3) (t : ℚ)
    (hnor : lengthSquared (cross (b - a) (a - c)) ≠ 0) :
    usdTriangle ((1/3 : ℚ) • (a + b + c) + t • cross (b - a) (a - c)) a b c
      = t ^ 2 * lengthSquared (cross (b - a) (a - c)) ∧
    usdTriangle a a b c = 0 ∧ usdTriangle b a b c = 0 ∧
    usdTriangle c a b c = 0 :=
  ⟨usdTriangle_centroid_normal a b c t hnor, usdTriangle_vertex_a a b c,
    usdTriangle_vertex_b a b c, usdTriangle_vertex_c a b c⟩

theorem C6_witness :
    lengthSquared (cross (vecB - vecA) (vecA - vecC)) ≠ 0 ∧
    (usdTriangle ((1/3 : ℚ) • (vecA + vecB + vecC) +
        (2 : ℚ) • cross (vecB - vecA) (vecA - vecC)) vecA vecB vecC
      = (2 : ℚ) ^ 2 * lengthSquared (cross (vecB - vecA) (vecA - vecC)) ∧
    usdTriangle vecA vecA vecB vecC = 0 ∧ usdTriangle vecB vecA vecB vecC = 0 ∧
    usdTriangle vecC vecA vecB vecC = 0) :=
  ⟨by norm_num [vecA, vecB, vecC, cross, lengthSquared, dot],
    C6_usdTriangle_centroid_height_and_vertices vecA vecB vecC 2
      (by norm_num [vecA, vecB, vecC, cross, lengthSquared, dot])⟩

/-- Claim C7: for every input, the barycentric coordinates returned by
`closestPointTriangle` (through the `uvw` output) are each in `[0, 1]` and
sum to 1 — including for degenerate zero-area triangles — and the returned
point is exactly the barycentric combination of the three vertices. -/
theorem C7_closestPointTriangle_barycentric_valid (p0 p1 p2 p : Vec3) :
    BaryValid ((closestPointTriangle p0 p1 p2 p).2) ∧
    (closestPointTriangle p0 p1 p2 p).1 =
      ((closestPointTriangle p0 p1 p2 p).2).x • p0 +
      ((closestPointTriangle p0 p1 p2 p).2).y • p1 +
      ((closestPointTriangle p0 p1 p2 p).2).z • p2 :=
  ⟨uvw_valid p0 p1 p2 p, rfl⟩

/-- Claim C10: whenever the 2x2 normal-equations determinant
`a * e - b * d` is zero (fully degenerate triangle), `closestPointTriangle`
returns the centroid barycentric coordinates `(1/3, 1/3, 1/3)` regardless of
the query point. -/
theorem C10_closestPointTriangle_degenerate_centroid (p0 p1 p2 p : Vec3)
    (hdet : lengthSquared (p1 - p0) * lengthSquared (p2 - p0) -
      dot (p2 - p0) (p1 - p0) * dot (p2 - p0) (p1 - p0) = 0) :
    (closestPointTriangle p0 p1 p2 p).2 = ⟨1/3, 1/3, 1/3⟩ := by
  show closestPointTriangleUVW p0 p1 p2 p = _
  unfold closestPointTriangleUVW
  simp only []
  rw [if_neg (show ¬(lengthSquared (p1 - p0) * lengthSquared (p2 - p0) -
    dot (p2 - p0) (p1 - p0) * dot (p2 - p0) (p1 - p0) ≠ 0) from
    fun hne => hne hdet)]

theorem C10_witness :
    lengthSquared (vecA - vecA) * lengthSquared (vecA - vecA) -
      dot (vecA - vecA) (vecA - vecA) * dot (vecA - vecA) (vecA - vecA) = 0 ∧
    (closestPointTriangle vecA vecA vecA ⟨1, 2, 3⟩).2 = ⟨1/3, 1/3, 1/3⟩ :=
  ⟨by norm_num [vecA, lengthSquared, dot],
    C10_closestPointTriangle_degenerate_centroid vecA vecA vecA ⟨1, 2, 3⟩
      (by norm_num [vecA, lengthSquared, dot])⟩

/-- Claim C8: both initialization procedures write the `(index, distance)`
pairs in exactly the supplied order — slot `i` receives the raw index at
offset `index * count + i`, with no sorting; a non-sentinel slot's distance is
the squared Euclidean distance to the query position (point shape) or the
point-triangle pseudo-distance (triangle shape), and a sentinel slot receives
the sentinel distance `FLT_MAX`. -/
theorem C8_initialization_order_and_distances (candidatesBuf : ℕ → ℕ)
    (positions : ℕ → Vec3) (getTriangle : ℕ → ℕ × ℕ × ℕ)
    (s0 s1 : ℕ → CollisionCandidate) (index : ℕ) (position : Vec3)
    (count i : ℕ) (hi : i < count) :
    initializeCollisionCandidates candidatesBuf positions s0 index position
        count i =
      (if candidatesBuf (index * count + i) ≠ UINT_MAX then
        { index := candidatesBuf (index * count + i),
          distance := lengthSquared
            (position - positions (candidatesBuf (index * count + i))) }
      else
        { index := candidatesBuf (index * count + i), distance := FLT_MAX }) ∧
    initializeTriangleCollisionCandidates candidatesBuf positions getTriangle
        index position s1 count i =
      (if candidatesBuf (index * count + i) ≠ UINT_MAX then
        { index := candidatesBuf (index * count + i),
          distance := usdTriangle position
            (positions (getTriangle (candidatesBuf (index * count + i))).1)
            (positions (getTriangle (candidatesBuf (index * count + i))).2.1)
            (positions (getTriangle (candidatesBuf (index * count + i))).2.2) }
      else
        { index := candidatesBuf (index * count + i), distance := FLT_MAX }) := by
  constructor
  · unfold initializeCollisionCandidates
    rw [initCC_eval]
    rw [if_pos (show 0 ≤ i ∧ i < 0 + count by omega)]
  · unfold initializeTriangleCollisionCandidates
    rw [initTriCC_eval]
    rw [if_pos (show 0 ≤ i ∧ i < 0 + count by omega)]

theorem C8_witness :
    (0 : ℕ) < 2 ∧
    (initializeCollisionCandidates exBuf exPos exAcc 0 ⟨0, 0, 0⟩ 2 0 =
      (if exBuf (0 * 2 + 0) ≠ UINT_MAX then
        { index := exBuf (0 * 2 + 0),
          distance := lengthSquared
            ((⟨0, 0, 0⟩ : Vec3) - exPos (exBuf (0 * 2 + 0))) }
      else { index := exBuf (0 * 2 + 0), distance := FLT_MAX }) ∧
    initializeTriangleCollisionCandidates exBuf exPos exTri 0 ⟨0, 0, 0⟩ exAcc
        2 0 =
      (if exBuf (0 * 2 + 0) ≠ UINT_MAX then
        { index := exBuf (0 * 2 + 0),
          distance := usdTriangle ⟨0, 0, 0⟩
            (exPos (exTri (exBuf (0 * 2 + 0))).1)
            (exPos (exTri (exBuf (0 * 2 + 0))).2.1)
            (exPos (exTri (exBuf (0 * 2 + 0))).2.2) }
      else { index := exBuf (0 * 2 + 0), distance := FLT_MAX })) :=
  ⟨by decide, C8_initialization_order_and_distances exBuf exPos exTri exAcc
    exAcc 0 ⟨0, 0, 0⟩ 2 0 (by decide)⟩

/-- Claim C9: every operation of the core is a deterministic pure function of
its own inputs — equal inputs give equal outputs for the cell computation,
hash and slot (including negative cell coordinates, quantified over all of
`ℤ`), the distance metric, and `insertSeed`; and a query element's
initialization output depends only on its own slice of the raw candidate
buffer and the positions of the elements that slice names, never on the rest
of the buffers. -/
theorem C9_determinism_and_noninterference :
    (∀ (cell1 cell2 : ℤ × ℤ × ℤ) (cap1 cap2 : ℕ), cell1 = cell2 →
      cap1 = cap2 → computeHash cell1 = computeHash cell2 ∧
        getHash cell1 cap1 = getHash cell2 cap2) ∧
    (∀ (q1 q2 : Vec3) (g1 g2 : ℚ), q1 = q2 → g1 = g2 →
      hashCoord q1 g1 = hashCoord q2 g2) ∧
    (∀ (q1 q2 a1 a2 b1 b2 c1 c2 : Vec3), q1 = q2 → a1 = a2 → b1 = b2 →
      c1 = c2 → usdTriangle q1 a1 b1 c1 = usdTriangle q2 a2 b2 c2) ∧
    (∀ (c1 c2 : ℕ → CollisionCandidate) (idx1 idx2 : ℕ) (d1 d2 : ℚ)
      (n1 n2 : ℕ), c1 = c2 → idx1 = idx2 → d1 = d2 → n1 = n2 →
      insertSeed c1 idx1 d1 n1 = insertSeed c2 idx2 d2 n2) ∧
    (∀ (buf1 buf2 : ℕ → ℕ) (pos1 pos2 : ℕ → Vec3)
      (s0 : ℕ → CollisionCandidate) (index : ℕ) (position : Vec3) (count : ℕ),
      (∀ i, i < count → buf1 (index * count + i) = buf2 (index * count + i)) →
      (∀ i, i < count → buf1 (index * count + i) ≠ UINT_MAX →
        pos1 (buf1 (index * count + i)) = pos2 (buf1 (index * count + i))) →
      ∀ k, k < count →
        initializeCollisionCandidates buf1 pos1 s0 index position count k =
        initializeCollisionCandidates buf2 pos2 s0 index position count k) := by
  refine ⟨?_, ?_, ?_, ?_, ?_⟩
  · intro cell1 cell2 cap1 cap2 h1 h2
    subst h1
    subst h2
    exact ⟨rfl, rfl⟩
  · intro q1 q2 g1 g2 h1 h2
    subst h1
    subst h2
    rfl
  · intro q1 q2 a1 a2 b1 b2 c1 c2 h1 h2 h3 h4
    subst h1
    subst h2
    subst h3
    subst h4
    rfl
  · intro c1 c2 idx1 idx2 d1 d2 n1 n2 h1 h2 h3 h4
    subst h1
    subst h2
    subst h3
    subst h4
    rfl
  · intro buf1 buf2 pos1 pos2 s0 index position count h1 h2 k hk
    unfold initializeCollisionCandidates
    rw [initCC_eval, initCC_eval]
    rw [if_pos (show 0 ≤ k ∧ k < 0 + count by omega),
      if_pos (show 0 ≤ k ∧ k < 0 + count by omega)]
    rw [← h1 k hk]
    by_cases hsent : buf1 (index * count + k) ≠ UINT_MAX
    · rw [if_pos hsent, if_pos hsent, h2 k hk hsent]
    · rw [if_neg hsent, if_neg hsent]

theorem C9_witness :
    (∀ i, i < 2 → exBuf (0 * 2 + i) = exBuf2 (0 * 2 + i)) ∧
    (∀ i, i < 2 → exBuf (0 * 2 + i) ≠ UINT_MAX →
      exPos (exBuf (0 * 2 + i)) = exPos2 (exBuf (0 * 2 + i))) ∧
    (∀ k, k < 2 →
      initializeCollisionCandidates exBuf exPos exAcc 0 ⟨0, 0, 0⟩ 2 k =
      initializeCollisionCandidates exBuf2 exPos2 exAcc 0 ⟨0, 0, 0⟩ 2 k) :=
  ⟨by decide, by decide,
    C9_determinism_and_noninterference.2.2.2.2 exBuf exBuf2 exPos exPos2
      exAcc 0 ⟨0, 0, 0⟩ 2 (by decide) (by decide)⟩
